import Mathlib

/-!
Verification development for the IIS log converter (`src/app.py`).

The pipeline under study: `parse_iis_log` (UTF-8 decode with ignored
errors, `#Fields:` directive scan, whitespace tokenisation, numeric and
datetime coercion), `generate_summary`, `create_pivot_table`, and
`get_error_apps`.  Strings are modelled as `List Char`, bytes as
`List Nat`, pandas numeric cells as `Option ℚ` (with `none` for NaN),
and pandas datetimes as `Option ℤ`.
-/

namespace IISLog

abbrev Str := List Char

/-- Whitespace characters recognised by Python's `str.split()` /
`str.strip()` (the `str.isspace` set). -/
def pyIsSpace (c : Char) : Bool :=
  decide (c ∈ [' ', '\t', '\n', '\r', '\x0b', '\x0c', '\x1c', '\x1d', '\x1e', '\x1f',
      '\x85', '\xa0', ' ', ' ', ' ', ' ', ' ', '　'])
    || (0x2000 ≤ c.toNat && c.toNat ≤ 0x200a)

/-- Single-character line boundaries of Python's `str.splitlines`
(carriage returns are handled separately, so that `"\r\n"` counts once). -/
def isNewlineChar (c : Char) : Bool :=
  decide (c ∈ ['\n', '\x0b', '\x0c', '\x1c', '\x1d', '\x1e', '\x85', ' ', ' '])

def splitLinesAux : List Char → List Char → List Str
  | [], acc => if acc.isEmpty then [] else [acc.reverse]
  | '\r' :: '\n' :: rest, acc => acc.reverse :: splitLinesAux rest []
  | '\r' :: rest, acc => acc.reverse :: splitLinesAux rest []
  | c :: rest, acc =>
      if isNewlineChar c then acc.reverse :: splitLinesAux rest []
      else splitLinesAux rest (c :: acc)

/-- Python `str.splitlines` (no trailing empty line). -/
def splitLines (s : List Char) : List Str := splitLinesAux s []

def tokensAux : List Char → List Char → List Str
  | [], cur => if cur.isEmpty then [] else [cur.reverse]
  | c :: rest, cur =>
      if pyIsSpace c then
        if cur.isEmpty then tokensAux rest [] else cur.reverse :: tokensAux rest []
      else tokensAux rest (c :: cur)

/-- Python `line.split()`: split on runs of whitespace, dropping empties. -/
def tokens (l : Str) : List Str := tokensAux l []

/-- Python `line.strip()` is non-empty. -/
def nonblank (l : Str) : Bool := l.any (fun c => !pyIsSpace c)

/-- Python `line.startswith(pat)`. -/
def startsWithB : Str → Str → Bool
  | [], _ => true
  | _ :: _, [] => false
  | p :: ps, c :: cs => p == c && startsWithB ps cs

def isComment (l : Str) : Bool := startsWithB ['#'] l

def isDirectiveLine (l : Str) : Bool := startsWithB "#Fields:".data l

/-- UTF-8 continuation byte. -/
def isCont (b : ℕ) : Bool := 0x80 ≤ b && b ≤ 0xBF

/-- Python `bytes.decode('utf-8', errors='ignore')`, fuelled (every
step consumes at least one byte, so fuel = length suffices):
well-formed sequences decode to their scalar value; a maximal
ill-formed subpart is skipped without producing anything (CPython's
error ranges: an invalid lead byte or an invalid first continuation
skips one byte; a valid prefix of a longer sequence is skipped as a
whole). -/
def utf8DecodeAux : ℕ → List ℕ → List Char
  | _, [] => []
  | 0, _ :: _ => []
  | n + 1, b :: bs =>
    if b < 0x80 then Char.ofNat b :: utf8DecodeAux n bs
    else if b < 0xC2 then utf8DecodeAux n bs
    else if b < 0xE0 then
      match bs with
      | [] => []
      | b1 :: bs1 =>
        if isCont b1 then Char.ofNat ((b - 0xC0) * 0x40 + (b1 - 0x80)) :: utf8DecodeAux n bs1
        else utf8DecodeAux n (b1 :: bs1)
    else if b < 0xF0 then
      match bs with
      | [] => []
      | b1 :: bs1 =>
        if (if b = 0xE0 then 0xA0 else 0x80) ≤ b1 && b1 ≤ (if b = 0xED then 0x9F else 0xBF) then
          match bs1 with
          | [] => []
          | b2 :: bs2 =>
            if isCont b2 then
              Char.ofNat ((b - 0xE0) * 0x1000 + (b1 - 0x80) * 0x40 + (b2 - 0x80)) ::
                utf8DecodeAux n bs2
            else utf8DecodeAux n (b2 :: bs2)
        else utf8DecodeAux n (b1 :: bs1)
    else if b < 0xF5 then
      match bs with
      | [] => []
      | b1 :: bs1 =>
        if (if b = 0xF0 then 0x90 else 0x80) ≤ b1 && b1 ≤ (if b = 0xF4 then 0x8F else 0xBF) then
          match bs1 with
          | [] => []
          | b2 :: bs2 =>
            if isCont b2 then
              match bs2 with
              | [] => []
              | b3 :: bs3 =>
                if isCont b3 then
                  Char.ofNat ((b - 0xF0) * 0x40000 + (b1 - 0x80) * 0x1000 +
                    (b2 - 0x80) * 0x40 + (b3 - 0x80)) :: utf8DecodeAux n bs3
                else utf8DecodeAux n (b3 :: bs3)
            else utf8DecodeAux n (b2 :: bs2)
        else utf8DecodeAux n (b1 :: bs1)
    else utf8DecodeAux n bs

def utf8Decode (l : List ℕ) : List Char := utf8DecodeAux l.length l

/-- Modelled from the spec: `bytes.decode` with *replacement* semantics
("invalid byte sequences are replaced" with the marker U+FFFD), the
behaviour the specification ascribes to the decoder.  Same sequence
boundaries as `utf8Decode`, but each skipped ill-formed subpart emits
one replacement character. -/
def utf8DecodeReplaceAux : ℕ → List ℕ → List Char
  | _, [] => []
  | 0, _ :: _ => []
  | n + 1, b :: bs =>
    if b < 0x80 then Char.ofNat b :: utf8DecodeReplaceAux n bs
    else if b < 0xC2 then '�' :: utf8DecodeReplaceAux n bs
    else if b < 0xE0 then
      match bs with
      | [] => ['�']
      | b1 :: bs1 =>
        if isCont b1 then
          Char.ofNat ((b - 0xC0) * 0x40 + (b1 - 0x80)) :: utf8DecodeReplaceAux n bs1
        else '�' :: utf8DecodeReplaceAux n (b1 :: bs1)
    else if b < 0xF0 then
      match bs with
      | [] => ['�']
      | b1 :: bs1 =>
        if (if b = 0xE0 then 0xA0 else 0x80) ≤ b1 && b1 ≤ (if b = 0xED then 0x9F else 0xBF) then
          match bs1 with
          | [] => ['�']
          | b2 :: bs2 =>
            if isCont b2 then
              Char.ofNat ((b - 0xE0) * 0x1000 + (b1 - 0x80) * 0x40 + (b2 - 0x80)) ::
                utf8DecodeReplaceAux n bs2
            else '�' :: utf8DecodeReplaceAux n (b2 :: bs2)
        else '�' :: utf8DecodeReplaceAux n (b1 :: bs1)
    else if b < 0xF5 then
      match bs with
      | [] => ['�']
      | b1 :: bs1 =>
        if (if b = 0xF0 then 0x90 else 0x80) ≤ b1 && b1 ≤ (if b = 0xF4 then 0x8F else 0xBF) then
          match bs1 with
          | [] => ['�']
          | b2 :: bs2 =>
            if isCont b2 then
              match bs2 with
              | [] => ['�']
              | b3 :: bs3 =>
                if isCont b3 then
                  Char.ofNat ((b - 0xF0) * 0x40000 + (b1 - 0x80) * 0x1000 +
                    (b2 - 0x80) * 0x40 + (b3 - 0x80)) :: utf8DecodeReplaceAux n bs3
                else '�' :: utf8DecodeReplaceAux n (b3 :: bs3)
            else '�' :: utf8DecodeReplaceAux n (b2 :: bs2)
        else '�' :: utf8DecodeReplaceAux n (b1 :: bs1)
    else '�' :: utf8DecodeReplaceAux n bs

def utf8DecodeReplace (l : List ℕ) : List Char := utf8DecodeReplaceAux l.length l

def isDigitB (c : Char) : Bool := 48 ≤ c.toNat && c.toNat ≤ 57

def takeDigits : Str → (List ℕ × Str)
  | [] => ([], [])
  | c :: rest =>
    if isDigitB c then
      let p := takeDigits rest
      ((c.toNat - 48) :: p.1, p.2)
    else ([], c :: rest)

def digitsVal (ds : List ℕ) : ℕ := ds.foldl (fun a d => 10 * a + d) 0

def applySign (neg : Bool) (q : ℚ) : ℚ := if neg then -q else q

def parseExp (v : ℚ) : Str → Option ℚ
  | [] => some v
  | c :: rest =>
    if c == 'e' || c == 'E' then
      let p : Bool × Str :=
        match rest with
        | '+' :: r => (false, r)
        | '-' :: r => (true, r)
        | r => (false, r)
      let d := takeDigits p.2
      if d.1.isEmpty || !d.2.isEmpty then none
      else some (if p.1 then v / 10 ^ digitsVal d.1 else v * 10 ^ digitsVal d.1)
    else none

/-- Best-effort numeric parse of one token, modelling the successful
cases of `pd.to_numeric(..., errors='coerce')` on a string cell:
optional sign, decimal digits with an optional fraction and exponent;
anything else coerces to NaN (`none`). -/
def parseNum (s : Str) : Option ℚ :=
  let p : Bool × Str :=
    match s with
    | '+' :: r => (false, r)
    | '-' :: r => (true, r)
    | r => (false, r)
  let d := takeDigits p.2
  match d.2 with
  | '.' :: s3 =>
    let f := takeDigits s3
    if d.1.isEmpty && f.1.isEmpty then none
    else parseExp (applySign p.1 ((digitsVal d.1 : ℚ) + (digitsVal f.1 : ℚ) / 10 ^ f.1.length)) f.2
  | _ =>
    if d.1.isEmpty then none
    else parseExp (applySign p.1 (digitsVal d.1 : ℚ)) d.2

def isLeap (y : ℕ) : Bool := (y % 4 == 0 && y % 100 != 0) || y % 400 == 0

def daysInMonth (y m : ℕ) : ℕ :=
  if m = 2 then (if isLeap y then 29 else 28)
  else if m = 4 ∨ m = 6 ∨ m = 9 ∨ m = 11 then 30
  else 31

def takeFixedAux : ℕ → ℕ → Str → Option (ℕ × Str)
  | 0, acc, l => some (acc, l)
  | _ + 1, _, [] => none
  | n + 1, acc, c :: rest =>
    if isDigitB c then takeFixedAux n (10 * acc + (c.toNat - 48)) rest else none

def expectChar (c : Char) : Str → Option Str
  | [] => none
  | x :: r => if x == c then some r else none

/-- Modelled from the spec and the IIS log format: the successful cases
of `pd.to_datetime(..., errors='coerce')` on a `"date time"` string,
i.e. a valid `YYYY-MM-DD HH:MM:SS` calendar timestamp, encoded
order-preservingly into `ℤ`; anything else coerces to `NaT` (`none`). -/
def parseDateTime (s : Str) : Option ℤ := do
  let py ← takeFixedAux 4 0 s
  let r2 ← expectChar '-' py.2
  let pm ← takeFixedAux 2 0 r2
  let r4 ← expectChar '-' pm.2
  let pd ← takeFixedAux 2 0 r4
  let r6 ← expectChar ' ' pd.2
  let ph ← takeFixedAux 2 0 r6
  let r8 ← expectChar ':' ph.2
  let pmi ← takeFixedAux 2 0 r8
  let r10 ← expectChar ':' pmi.2
  let ps ← takeFixedAux 2 0 r10
  if ps.2.isEmpty ∧ 1 ≤ pm.1 ∧ pm.1 ≤ 12 ∧ 1 ≤ pd.1 ∧ pd.1 ≤ daysInMonth py.1 pm.1 ∧
      ph.1 ≤ 23 ∧ pmi.1 ≤ 59 ∧ ps.1 ≤ 59 then
    some ((((((py.1 * 13 + pm.1) * 32 + pd.1) * 24 + ph.1) * 60 + pmi.1) * 60 + ps.1 : ℕ) : ℤ)
  else none

/-- One cell of a pandas DataFrame as this program uses it: a raw string
token, a numeric value (`none` = NaN), a datetime (`none` = NaT), or
Python `None` (the filler pandas inserts for a ragged short row). -/
inductive Cell where
  | str (s : Str)
  | num (q : Option ℚ)
  | dt (t : Option ℤ)
  | null
deriving DecidableEq

structure DataFrame where
  cols : List Str
  rows : List (List Cell)
deriving DecidableEq

def idxOf (c : Str) : List Str → Option ℕ
  | [] => none
  | x :: xs => if x = c then some 0 else (idxOf c xs).map (· + 1)

def modAt {α : Type} : ℕ → (α → α) → List α → List α
  | _, _, [] => []
  | 0, f, x :: xs => f x :: xs
  | n + 1, f, x :: xs => x :: modAt n f xs

/-- Python truthiness of the `fields` variable in `parse_iis_log`:
`None` and `[]` are falsy. -/
def fieldsTruthy : Option (List Str) → Bool
  | some (_ :: _) => true
  | _ => false

/-- One iteration of the line loop of `parse_iis_log` (app.py lines
20-28): directive lines overwrite `fields`, other comment lines are
skipped, and a non-blank data line is appended when its token count
matches the current schema. -/
def scanStep (st : Option (List Str) × List (List Str)) (l : Str) :
    Option (List Str) × List (List Str) :=
  if isComment l then
    if isDirectiveLine l then (some ((tokens l).drop 1), st.2) else st
  else if fieldsTruthy st.1 && nonblank l then
    if (tokens l).length = (st.1.getD []).length then (st.1, st.2 ++ [tokens l]) else st
  else st

/-- Whether `parse_iis_log`'s loop accepts a (non-comment) data line
under the current `fields` state: `fields` truthy, line non-blank, and
token count equal to the field count (app.py lines 25-27). -/
def acceptedBy (f : Option (List Str)) (l : Str) : Bool :=
  fieldsTruthy f && nonblank l && ((tokens l).length == (f.getD []).length)

def scanFrom (st : Option (List Str) × List (List Str)) (ls : List Str) :
    Option (List Str) × List (List Str) :=
  ls.foldl scanStep st

/-- The whole line loop of `parse_iis_log`, from the initial state
`fields = None`, `data = []`. -/
def scanLines (ls : List Str) : Option (List Str) × List (List Str) :=
  scanFrom (none, []) ls

/-- The last `#Fields:` line of the input, if any. -/
def lastDir : List Str → Option Str
  | [] => none
  | l :: ls =>
    match lastDir ls with
    | some d => some d
    | none => if isDirectiveLine l then some l else none

/-- Modelled from the spec: the scan the specification describes for
multiple directive lines, "as if earlier directives had never
occurred" — every directive line except the last one is erased from the
input before scanning. -/
def keepLastDirAux : List Str → Bool → List Str
  | [], _ => []
  | l :: ls, seen =>
    if isDirectiveLine l then
      (if seen then keepLastDirAux ls true else l :: keepLastDirAux ls true)
    else l :: keepLastDirAux ls seen

def scanLinesLastDirOnly (ls : List Str) : Option (List Str) × List (List Str) :=
  scanLines ((keepLastDirAux ls.reverse false).reverse)

/-- Pandas `pd.DataFrame(data, columns=fields)` on a list of token lists:
rows shorter than the widest row are padded with `None`; if the width
disagrees with the number of column names, construction raises. -/
def mkDF (fl : List Str) (data : List (List Str)) : Option DataFrame :=
  let w := (data.map List.length).foldl Nat.max 0
  if w = fl.length then
    some ⟨fl, data.map (fun r => r.map Cell.str ++ List.replicate (w - r.length) Cell.null)⟩
  else none

/-- The fixed numeric columns of app.py line 36. -/
def numericColNames : List Str :=
  ["s-port", "sc-status", "sc-substatus", "sc-win32-status", "sc-bytes", "cs-bytes",
    "time-taken"].map String.data

/-- Pandas `pd.to_numeric(_, errors='coerce')` on one cell: strings parse or
degrade to NaN, numeric cells pass through unchanged, datetimes become
their integer value, `None` becomes NaN. -/
def toNumericCell : Cell → Cell
  | .str s => .num (parseNum s)
  | .num q => .num q
  | .dt t => .num (t.map (fun z => (z : ℚ)))
  | .null => .num none

/-- Pandas `pd.to_numeric(column, errors='coerce')`. -/
def to_numeric (col : List Cell) : List Cell := col.map toNumericCell

def dateName : Str := "date".data
def timeName : Str := "time".data
def datetimeName : Str := "datetime".data
def scStatusName : Str := "sc-status".data
def timeTakenName : Str := "time-taken".data
def uriStemName : Str := "cs-uri-stem".data

/-- The derived cell of `pd.to_datetime(df['date'] + ' ' + df['time'],
errors='coerce')` for one row: the two raw strings joined by one space
and parsed; a missing or non-string operand (pandas' masked object
arithmetic turns it into NaN) degrades to NaT. -/
def datetimeCellOf (di ti : ℕ) (r : List Cell) : Cell :=
  .dt (match r.get? di, r.get? ti with
    | some (.str a), some (.str b) => parseDateTime (a ++ ' ' :: b)
    | _, _ => none)

/-- One step of the numeric loop, `if col in df.columns: df[col] = pd.to_numeric(df[col],
errors='coerce')` for one fixed column name. -/
def coerceNumStep (d : DataFrame) (c : Str) : DataFrame :=
  match idxOf c d.cols with
  | some i => ⟨d.cols, d.rows.map (modAt i toNumericCell)⟩
  | none => d

/-- The numeric-coercion loop of app.py lines 36-39. -/
def coerceNumeric (df : DataFrame) : DataFrame :=
  numericColNames.foldl coerceNumStep df

/-- The datetime-derivation step of app.py lines 42-43: when both
`date` and `time` exist, assign the joined-and-parsed `datetime`
column (overwriting an existing `datetime` column, else appending). -/
def addDatetime (df1 : DataFrame) : DataFrame :=
  match idxOf dateName df1.cols, idxOf timeName df1.cols with
  | some di, some ti =>
    match idxOf datetimeName df1.cols with
    | some k => ⟨df1.cols, df1.rows.map (fun r => modAt k (fun _ => datetimeCellOf di ti r) r)⟩
    | none => ⟨df1.cols ++ [datetimeName], df1.rows.map (fun r => r ++ [datetimeCellOf di ti r])⟩
  | _, _ => df1

/-- The type-coercion part of `parse_iis_log` (app.py lines 35-43):
each present fixed numeric column is reinterpreted cell-wise, then, if
both `date` and `time` exist, a `datetime` column is derived. -/
def coerceTable (df : DataFrame) : DataFrame :=
  addDatetime (coerceNumeric df)

inductive ParseErr where
  | formatErr
  | columnsErr
deriving DecidableEq

instance instDecEqExcept {α β : Type} [DecidableEq α] [DecidableEq β] :
    DecidableEq (Except α β)
  | .error a, .error b =>
    if h : a = b then .isTrue (by rw [h]) else .isFalse (by simp [h])
  | .error _, .ok _ => .isFalse (by simp)
  | .ok _, .error _ => .isFalse (by simp)
  | .ok a, .ok b =>
    if h : a = b then .isTrue (by rw [h]) else .isFalse (by simp [h])

/-- The tail of `parse_iis_log` after the line loop: the
`if not fields or not data` check (app.py line 30), then DataFrame
construction and coercion. -/
def parseScan (st : Option (List Str) × List (List Str)) : Except ParseErr DataFrame :=
  match st.1 with
  | none => .error .formatErr
  | some fl =>
    if fl.isEmpty ∨ st.2.isEmpty then .error .formatErr
    else
      match mkDF fl st.2 with
      | none => .error .columnsErr
      | some df => .ok (coerceTable df)

/-- The function `parse_iis_log` (app.py lines 14-47).  `formatErr` is the
"Invalid IIS log format or no data found" ValueError; `columnsErr` is
the re-wrapped failure of `pd.DataFrame` on rows whose width conflicts
with the schema. -/
def parse_iis_log (bytes : List ℕ) : Except ParseErr DataFrame :=
  parseScan (scanLines (splitLines (utf8Decode bytes)))

def colCell (df : DataFrame) (c : Str) (r : List Cell) : Option Cell :=
  (idxOf c df.cols).bind r.get?

/-- The numeric `sc-status` value of a row (`none` for NaN or anything
non-numeric, which pandas grouping drops). -/
def statusOf (df : DataFrame) (r : List Cell) : Option ℚ :=
  match colCell df scStatusName r with
  | some (.num q) => q
  | _ => none

def ttOf (df : DataFrame) (r : List Cell) : Option ℚ :=
  match colCell df timeTakenName r with
  | some (.num q) => q
  | _ => none

def endpointOf (df : DataFrame) (r : List Cell) : Option Str :=
  match colCell df uriStemName r with
  | some (.str s) => some s
  | _ => none

def meanOpt (l : List ℚ) : Option ℚ :=
  if l.isEmpty then none else some (l.sum / l.length)

def maxOpt : List ℚ → Option ℚ
  | [] => none
  | x :: xs => some (xs.foldl max x)

def minOpt : List ℚ → Option ℚ
  | [] => none
  | x :: xs => some (xs.foldl min x)

def qLeB (a b : ℚ) : Bool := decide (a ≤ b)

/-- Python string order (code-point lexicographic). -/
def strLeB : Str → Str → Bool
  | [], _ => true
  | _ :: _, [] => false
  | a :: as, b :: bs =>
    if a.toNat < b.toNat then true else if a.toNat = b.toNat then strLeB as bs else false

def insSorted {α : Type} (le : α → α → Bool) (a : α) : List α → List α
  | [] => [a]
  | b :: bs => if le a b then a :: b :: bs else b :: insSorted le a bs

def insSort {α : Type} (le : α → α → Bool) : List α → List α
  | [] => []
  | a :: as => insSorted le a (insSort le as)

/-- The distinct non-NaN `sc-status` group keys in pandas' order
(ascending); NaN keys are dropped by `groupby`'s default `dropna`. -/
def sortedStatuses (df : DataFrame) : List ℚ :=
  insSort qLeB (df.rows.filterMap (statusOf df)).dedup

structure SummaryRow where
  sc_status : ℚ
  count : ℕ
  avg_time_taken : Option ℚ
  max_time_taken : Option ℚ
  min_time_taken : Option ℚ
deriving DecidableEq

/-- One output row of `generate_summary` for status group `k`:
`count` is the whole group's size (`('sc-status', 'size')`), while the
`time-taken` aggregates run over the group's non-NaN values only. -/
def summaryRowFor (df : DataFrame) (k : ℚ) : SummaryRow :=
  let grp := df.rows.filter (fun r => statusOf df r == some k)
  let tts := grp.filterMap (ttOf df)
  { sc_status := k, count := grp.length, avg_time_taken := meanOpt tts,
    max_time_taken := maxOpt tts, min_time_taken := minOpt tts }

/-- The function `generate_summary` (app.py lines 49-64): requires `sc-status` and
`time-taken`; groups by the numeric status (NaN keys dropped), `count`
is the group size, the `time-taken` aggregates skip NaN. -/
def generate_summary (df : DataFrame) : Except Unit (List SummaryRow) :=
  if scStatusName ∈ df.cols ∧ timeTakenName ∈ df.cols then
    .ok ((sortedStatuses df).map (summaryRowFor df))
  else .error ()

structure PivotRow where
  cs_uri_stem : Str
  cells : List (Option ℚ)
deriving DecidableEq

structure Pivot where
  colNames : List Str
  rows : List PivotRow
deriving DecidableEq

/-- Whether the coerced `sc-status` column has pandas dtype `int64`
(every value parsed, and to an integer); otherwise it is `float64` and
`str()` of a key renders with a fractional part. -/
def statusColIsIntDtype (df : DataFrame) : Bool :=
  df.rows.all (fun r =>
    match colCell df scStatusName r with
    | some (.num (some q)) => q.den == 1
    | _ => false)

def intStr (n : ℤ) : Str := (toString n).data

def findDecExpAux (q : ℚ) : ℕ → ℕ → Option ℕ
  | 0, _ => none
  | fuel + 1, k => if (q * 10 ^ k).den == 1 then some k else findDecExpAux q fuel (k + 1)

/-- Python `str()` of a float holding `q` (shortest decimal form; only
the integral case is ever relied upon in proofs). -/
def pyFloatRepr (q : ℚ) : Str :=
  if q.den == 1 then intStr q.num ++ ".0".data
  else
    match findDecExpAux q 30 1 with
    | some k =>
      let n := (q * 10 ^ k).num.natAbs
      let fpStr := (toString (n % 10 ^ k)).data
      (if q < 0 then ['-'] else []) ++ (toString (n / 10 ^ k)).data ++
        '.' :: (List.replicate (k - fpStr.length) '0' ++ fpStr)
    | none => intStr q.num ++ '/' :: intStr (q.den : ℤ)

/-- The rendering of one status key inside a flattened pivot column name. -/
def statusKeyStr (intD : Bool) (q : ℚ) : Str :=
  if intD then intStr q.num else pyFloatRepr q

def aggNames : List Str := ["count", "mean", "max"].map String.data

/-- Whether endpoint `e` survives in the `mean` and `max` pieces of
the pivot: with a list `aggfunc`, pandas builds one pivot per aggfunc
and, inside each piece, `agged.dropna(how="all")` removes every
(endpoint, status) group whose aggregate is NaN — for `mean`/`max`,
every group whose `time-taken` values are all NaN.  An endpoint keeps
a row in those pieces iff it has at least one row with a non-null
status *and* a non-null `time-taken`. -/
def epHasMeasuredRow (df : DataFrame) (e : Str) : Bool :=
  df.rows.any (fun r =>
    endpointOf df r == some e && (statusOf df r).isSome && (ttOf df r).isSome)

/-- One aggregated pivot cell for `(endpoint, status)`, `none` = NaN.
`fill_value=0` is applied *inside each aggfunc piece* before the
pieces are concatenated with an outer join, so: a `count` cell is
always a number (the count of the pair's non-NaN `time-taken`, 0 for
an unobserved pair); a `mean`/`max` cell is the aggregate of the
pair's non-NaN `time-taken` values with an empty aggregate filled to 0
— but only while the endpoint still has a row in that piece.  An
endpoint dropped from the `mean`/`max` pieces (no non-null
`time-taken` at all) is re-introduced by the outer-join concat with
NaN, not 0, in all its `mean_*`/`max_*` cells. -/
def pivotCell (df : DataFrame) (a : Str) (e : Str) (s : ℚ) : Option ℚ :=
  let tts := (df.rows.filter (fun r =>
    endpointOf df r == some e && statusOf df r == some s)).filterMap (ttOf df)
  if a = "count".data then some (tts.length : ℚ)
  else if epHasMeasuredRow df e then
    some ((if a = "mean".data then meanOpt tts else maxOpt tts).getD 0)
  else none

/-- The endpoints that appear in at least one row with a non-NaN
status — exactly the index `pd.pivot_table` keeps after its `dropna`
grouping — in pandas' sorted order. -/
def pivotEndpoints (df : DataFrame) : List Str :=
  insSort strLeB ((df.rows.filterMap (fun r =>
    match endpointOf df r, statusOf df r with
    | some e, some _ => some e
    | _, _ => none)).dedup)

/-- The flattened pivot column names, `'_'.join((agg, str(status)))`,
agg-major (count block, then mean block, then max block), statuses
ascending within each block. -/
def pivotColNames (df : DataFrame) : List Str :=
  (aggNames.map (fun a =>
    (sortedStatuses df).map (fun s => a ++ '_' :: statusKeyStr (statusColIsIntDtype df) s))).flatten

/-- One pivot output row: the endpoint and its flattened cell list, in
the same agg-major layout as `pivotColNames`. -/
def pivotRowFor (df : DataFrame) (e : Str) : PivotRow :=
  { cs_uri_stem := e,
    cells := (aggNames.map (fun a => (sortedStatuses df).map (fun s => pivotCell df a e s))).flatten }

/-- The function `create_pivot_table` (app.py lines 66-78): `pd.pivot_table` over
`time-taken` with index `cs-uri-stem`, columns `sc-status`, aggfuncs
`['count','mean','max']`, `fill_value=0`, flattened column names
`{agg}_{status}`, `None` when a required column is missing. -/
def create_pivot_table (df : DataFrame) : Option Pivot :=
  if scStatusName ∈ df.cols ∧ uriStemName ∈ df.cols then
    some { colNames := pivotColNames df, rows := (pivotEndpoints df).map (pivotRowFor df) }
  else none

structure ErrRow where
  cs_uri_stem : Str
  error_count : ℕ
  avg_time : Option ℚ
  max_time : Option ℚ
deriving DecidableEq

/-- The row filter of `get_error_apps`: `df['sc-status'] >= 500`
(NaN compares false, so NaN-status rows are excluded). -/
def isErrorRow (df : DataFrame) (r : List Cell) : Bool :=
  match statusOf df r with
  | some q => decide (500 ≤ q)
  | none => false

/-- One error-rollup output row for endpoint `e`: `error_count` is the
size of the endpoint's group among the `>= 500` rows, and the
`time-taken` aggregates skip NaN. -/
def errRowFor (df : DataFrame) (e : Str) : ErrRow :=
  let grp := (df.rows.filter (isErrorRow df)).filter (fun r => endpointOf df r == some e)
  let tts := grp.filterMap (ttOf df)
  { cs_uri_stem := e, error_count := grp.length,
    avg_time := meanOpt tts, max_time := maxOpt tts }

/-- The distinct endpoints among the `sc-status >= 500` rows in pandas'
sorted group order. -/
def errorEndpoints (df : DataFrame) : List Str :=
  insSort strLeB ((df.rows.filter (isErrorRow df)).filterMap (endpointOf df)).dedup

/-- The function `get_error_apps` (app.py lines 80-89): filter to `sc-status >= 500`,
group by `cs-uri-stem`, count rows and aggregate `time-taken` per
endpoint; `None` when a required column is missing. -/
def get_error_apps (df : DataFrame) : Option (List ErrRow) :=
  if scStatusName ∈ df.cols ∧ uriStemName ∈ df.cols then
    some ((errorEndpoints df).map (errRowFor df))
  else none

/-- ASCII bytes of a Lean string, for concrete log inputs. -/
def strBytes (s : String) : List ℕ := s.data.map Char.toNat

section Helpers

variable {α : Type}

theorem insSorted_perm (le : α → α → Bool) (a : α) (l : List α) :
    (insSorted le a l).Perm (a :: l) := by
  induction l with
  | nil => simp [insSorted]
  | cons b bs ih =>
    by_cases h : le a b = true
    · simp [insSorted, h]
    · simp only [insSorted, h, if_false]
      exact (ih.cons b).trans (List.Perm.swap a b bs)

theorem insSort_perm (le : α → α → Bool) (l : List α) : (insSort le l).Perm l := by
  induction l with
  | nil => simp [insSort]
  | cons a as ih => exact (insSorted_perm le a (insSort le as)).trans (ih.cons a)

theorem mem_insSort (le : α → α → Bool) (l : List α) (a : α) :
    a ∈ insSort le l ↔ a ∈ l :=
  (insSort_perm le l).mem_iff

theorem length_insSort (le : α → α → Bool) (l : List α) :
    (insSort le l).length = l.length :=
  (insSort_perm le l).length_eq

theorem nodup_insSort (le : α → α → Bool) {l : List α} (h : l.Nodup) :
    (insSort le l).Nodup :=
  ((insSort_perm le l).nodup_iff).2 h

theorem idxOf_eq_none_iff {c : Str} {l : List Str} : idxOf c l = none ↔ c ∉ l := by
  induction l with
  | nil => simp [idxOf]
  | cons x xs ih =>
    by_cases h : x = c
    · simp [idxOf, h]
    · rw [idxOf]
      simp only [h, if_false, Option.map_eq_none', ih]
      constructor
      · intro hc hmem
        rcases List.mem_cons.1 hmem with h1 | h1
        · exact h h1.symm
        · exact hc h1
      · intro hc h1
        exact hc (List.mem_cons_of_mem x h1)

theorem idxOf_get? {c : Str} {l : List Str} {i : ℕ} (h : idxOf c l = some i) :
    l.get? i = some c := by
  induction l generalizing i with
  | nil => simp [idxOf] at h
  | cons x xs ih =>
    by_cases hx : x = c
    · simp [idxOf, hx] at h
      subst h hx
      rfl
    · simp only [idxOf, hx, if_false, Option.map_eq_some'] at h
      obtain ⟨j, hj, rfl⟩ := h
      simpa using ih hj

theorem idxOf_mem_isSome {c : Str} {l : List Str} (h : c ∈ l) : (idxOf c l).isSome := by
  cases hi : idxOf c l with
  | some i => rfl
  | none => exact absurd h (idxOf_eq_none_iff.1 hi)

theorem modAt_length (n : ℕ) (f : α → α) (l : List α) : (modAt n f l).length = l.length := by
  induction l generalizing n with
  | nil => simp [modAt]
  | cons x xs ih =>
    cases n with
    | zero => rfl
    | succ m => simpa [modAt] using ih m

theorem get?_modAt (n : ℕ) (f : α → α) (l : List α) (j : ℕ) :
    (modAt n f l).get? j = if j = n then (l.get? j).map f else l.get? j := by
  induction l generalizing n j with
  | nil => simp [modAt]
  | cons x xs ih =>
    cases n with
    | zero =>
      cases j with
      | zero => simp [modAt]
      | succ k => simp [modAt]
    | succ m =>
      cases j with
      | zero => simp [modAt]
      | succ k => simpa [modAt, Nat.succ_inj] using ih m k

end Helpers

section ScanLemmas

theorem scanFrom_append (st : Option (List Str) × List (List Str)) (as bs : List Str) :
    scanFrom st (as ++ bs) = scanFrom (scanFrom st as) bs :=
  List.foldl_append _ _ as bs

theorem isComment_of_isDirectiveLine {l : Str} (h : isDirectiveLine l = true) :
    isComment l = true := by
  cases l with
  | nil => simp [isDirectiveLine, startsWithB] at h
  | cons c cs =>
    simp only [isDirectiveLine, String.data, startsWithB, Bool.and_eq_true, beq_iff_eq] at h
    obtain ⟨h1, -⟩ := h
    subst h1
    simp [isComment, startsWithB]

/-- The `fields` component after a step. -/
theorem scanStep_fst (st : Option (List Str) × List (List Str)) (l : Str) :
    (scanStep st l).1 = if isDirectiveLine l then some ((tokens l).drop 1) else st.1 := by
  by_cases hd : isDirectiveLine l = true
  · simp [scanStep, isComment_of_isDirectiveLine hd, hd]
  · simp only [hd, if_false]
    by_cases hc : isComment l = true
    · simp [scanStep, hc, hd]
    · by_cases ha : (fieldsTruthy st.1 && nonblank l) = true
      · by_cases hl : (tokens l).length = (st.1.getD []).length
        · simp [scanStep, hc, ha, hl]
        · simp [scanStep, hc, ha, hl]
      · simp [scanStep, hc, ha]

/-- The final schema is the one of the last directive line (overwrite
semantics), whatever the initial state. -/
theorem scanFrom_fst (st : Option (List Str) × List (List Str)) (ls : List Str) :
    (scanFrom st ls).1 =
      match lastDir ls with
      | some d => some ((tokens d).drop 1)
      | none => st.1 := by
  induction ls generalizing st with
  | nil => rfl
  | cons l ls ih =>
    have hstep : scanFrom st (l :: ls) = scanFrom (scanStep st l) ls := rfl
    rw [hstep, ih]
    cases hld : lastDir ls with
    | some d => simp [lastDir, hld]
    | none =>
      by_cases hd : isDirectiveLine l = true
      · simp [lastDir, hld, hd, scanStep_fst]
      · simp [lastDir, hld, hd, scanStep_fst]

/-- A non-directive line leaves the schema unchanged. -/
theorem scanFrom_fst_no_directive (st : Option (List Str) × List (List Str)) (ls : List Str)
    (h : ∀ l ∈ ls, isDirectiveLine l = false) : (scanFrom st ls).1 = st.1 := by
  rw [scanFrom_fst]
  have : lastDir ls = none := by
    induction ls with
    | nil => rfl
    | cons l ls ih =>
      have h1 := h l (by simp)
      have h2 : lastDir ls = none := ih (fun x hx => h x (by simp [hx]))
      simp [lastDir, h2, h1]
  simp [this]

/-- While `fields` is falsy, no data line is ever accepted. -/
theorem scanFrom_snd_falsy (ls : List Str) (f : Option (List Str)) (d : List (List Str))
    (hf : fieldsTruthy f = false) (h : ∀ l ∈ ls, isDirectiveLine l = false) :
    scanFrom (f, d) ls = (f, d) := by
  induction ls with
  | nil => rfl
  | cons l ls ih =>
    have h1 := h l (by simp)
    have hstep : scanStep (f, d) l = (f, d) := by
      by_cases hc : isComment l = true
      · simp [scanStep, hc, h1]
      · simp [scanStep, hc, hf]
    have : scanFrom (f, d) (l :: ls) = scanFrom (scanStep (f, d) l) ls := rfl
    rw [this, hstep]
    exact ih (fun x hx => h x (by simp [hx]))

/-- The predicate deciding whether a data line is accepted against a
(non-empty) schema of `k` fields. -/
def acceptedLine (k : ℕ) (l : Str) : Bool :=
  !isComment l && nonblank l && ((tokens l).length == k)

/-- With a fixed non-empty schema in force and no further directive
lines, the scan appends exactly the accepted lines' token lists. -/
theorem scanFrom_snd_fixed (ls : List Str) (F : List Str) (hF : F ≠ [])
    (d : List (List Str)) (h : ∀ l ∈ ls, isDirectiveLine l = false) :
    scanFrom (some F, d) ls =
      (some F, d ++ (ls.filter (acceptedLine F.length)).map tokens) := by
  induction ls generalizing d with
  | nil => simp [scanFrom]
  | cons l ls ih =>
    have h1 := h l (by simp)
    have hrest : ∀ x ∈ ls, isDirectiveLine x = false := fun x hx => h x (by simp [hx])
    have htruthy : fieldsTruthy (some F) = true := by
      cases F with
      | nil => exact absurd rfl hF
      | cons a as => rfl
    have hstep : scanFrom (some F, d) (l :: ls) = scanFrom (scanStep (some F, d) l) ls := rfl
    by_cases hc : isComment l = true
    · have : scanStep (some F, d) l = (some F, d) := by simp [scanStep, hc, h1]
      rw [hstep, this, ih d hrest]
      have : acceptedLine F.length l = false := by simp [acceptedLine, hc]
      simp [List.filter_cons, this]
    · by_cases hb : nonblank l = true
      · by_cases hl : (tokens l).length = F.length
        · have : scanStep (some F, d) l = (some F, d ++ [tokens l]) := by
            simp [scanStep, hc, htruthy, hb, hl]
          rw [hstep, this, ih (d ++ [tokens l]) hrest]
          have : acceptedLine F.length l = true := by simp [acceptedLine, hc, hb, hl]
          simp [List.filter_cons, this]
        · have : scanStep (some F, d) l = (some F, d) := by
            simp [scanStep, hc, htruthy, hb, hl]
          rw [hstep, this, ih d hrest]
          have : acceptedLine F.length l = false := by simp [acceptedLine, hl]
          simp [List.filter_cons, this]
      · have : scanStep (some F, d) l = (some F, d) := by simp [scanStep, hc, hb]
        rw [hstep, this, ih d hrest]
        have : acceptedLine F.length l = false := by simp [acceptedLine, hb]
        simp [List.filter_cons, this]

end ScanLemmas

section CoerceLemmas

/-- The declarative cell-wise form of the numeric-coercion loop: each
cell whose column name is in `NS` goes through `toNumericCell`, all
other cells are untouched. -/
def zipCoerce (NS : List Str) (cols : List Str) (r : List Cell) : List Cell :=
  List.zipWith (fun c cell => if c ∈ NS then toNumericCell cell else cell) cols r

theorem toNumericCell_idem (x : Cell) : toNumericCell (toNumericCell x) = toNumericCell x := by
  cases x <;> rfl

theorem zipCoerce_nil_left (cols : List Str) (r : List Cell) :
    zipCoerce [] cols r = List.zipWith (fun _ cell => cell) cols r := by
  simp [zipCoerce]

theorem zipWith_snd_eq (cols : List Str) (r : List Cell) (h : r.length = cols.length) :
    List.zipWith (fun _ cell => cell) cols r = r := by
  induction cols generalizing r with
  | nil =>
    cases r with
    | nil => rfl
    | cons x xs => simp at h
  | cons c cs ih =>
    cases r with
    | nil => simp at h
    | cons x xs =>
      simp only [List.length_cons, Nat.succ_inj] at h
      simp [ih xs h]

theorem zipCoerce_notMem (c : Str) (NS : List Str) (cols : List Str) (r : List Cell)
    (h : c ∉ cols) : zipCoerce (c :: NS) cols r = zipCoerce NS cols r := by
  induction cols generalizing r with
  | nil => rfl
  | cons c0 cs ih =>
    cases r with
    | nil => rfl
    | cons x xs =>
      have hne : c0 ≠ c := fun he => h (by simp [he])
      have hx : (c0 ∈ c :: NS) ↔ c0 ∈ NS := by
        simp [List.mem_cons, hne]
      have htail : c ∉ cs := fun hc => h (List.mem_cons_of_mem c0 hc)
      simp only [zipCoerce, List.zipWith] at *
      rw [ih xs htail]
      by_cases hm : c0 ∈ NS
      · simp [hm, hx.2 hm]
      · have : c0 ∉ c :: NS := fun hcc => hm (hx.1 hcc)
        simp [hm, this]

theorem zipCoerce_modAt (c : Str) (NS : List Str) (cols : List Str) (r : List Cell) (i : ℕ)
    (hnd : cols.Nodup) (hlen : r.length = cols.length) (hi : idxOf c cols = some i) :
    zipCoerce NS cols (modAt i toNumericCell r) = zipCoerce (c :: NS) cols r := by
  induction cols generalizing r i with
  | nil => simp [idxOf] at hi
  | cons c0 cs ih =>
    cases r with
    | nil => simp at hlen
    | cons x xs =>
      simp only [List.length_cons, Nat.succ_inj] at hlen
      have hnd2 := List.nodup_cons.1 hnd
      by_cases hc0 : c0 = c
      · have hi0 : i = 0 := by
          simp [idxOf, hc0] at hi
          omega
        subst hi0
        subst hc0
        have hnotmem : c0 ∉ cs := hnd2.1
        simp only [zipCoerce, List.zipWith, modAt]
        rw [show List.zipWith (fun c cell => if c ∈ c0 :: NS then toNumericCell cell else cell)
              cs xs = zipCoerce (c0 :: NS) cs xs from rfl,
            show List.zipWith (fun c cell => if c ∈ NS then toNumericCell cell else cell)
              cs xs = zipCoerce NS cs xs from rfl,
            zipCoerce_notMem c0 NS cs xs hnotmem]
        by_cases hm : c0 ∈ NS
        · simp [hm, toNumericCell_idem]
        · simp [hm]
      · have : ∃ j, idxOf c cs = some j ∧ i = j + 1 := by
          simp only [idxOf, hc0, if_false, Option.map_eq_some'] at hi
          obtain ⟨j, hj, hji⟩ := hi
          exact ⟨j, hj, hji.symm⟩
        obtain ⟨j, hj, rfl⟩ := this
        have hx : (c0 ∈ c :: NS) ↔ c0 ∈ NS := by
          simp [List.mem_cons, hc0]
        simp only [zipCoerce, List.zipWith, modAt]
        rw [show List.zipWith (fun c cell => if c ∈ NS then toNumericCell cell else cell)
              cs (modAt j toNumericCell xs) = zipCoerce NS cs (modAt j toNumericCell xs) from rfl,
            ih xs j hnd2.2 hlen hj]
        by_cases hm : c0 ∈ NS
        · simp only [zipCoerce]
          simp [hm, hx.2 hm]
        · have : c0 ∉ c :: NS := fun hcc => hm (hx.1 hcc)
          simp only [zipCoerce]
          simp [hm, this]

theorem zipCoerce_length (NS : List Str) (cols : List Str) (r : List Cell)
    (h : r.length = cols.length) : (zipCoerce NS cols r).length = r.length := by
  simp [zipCoerce, h]

theorem get?_zipCoerce (NS : List Str) (cols : List Str) (r : List Cell) (j : ℕ) :
    (zipCoerce NS cols r).get? j =
      match cols.get? j, r.get? j with
      | some c, some x => some (if c ∈ NS then toNumericCell x else x)
      | _, _ => none := by
  induction cols generalizing r j with
  | nil =>
    cases r <;> simp [zipCoerce]
  | cons c0 cs ih =>
    cases r with
    | nil => simp [zipCoerce]
    | cons x xs =>
      cases j with
      | zero => simp [zipCoerce]
      | succ k => simpa [zipCoerce] using ih xs k

/-- The whole numeric-coercion fold, in declarative form. -/
theorem foldl_coerceNumStep (NS : List Str) (df : DataFrame)
    (hnd : df.cols.Nodup) (hrect : ∀ r ∈ df.rows, r.length = df.cols.length) :
    NS.foldl coerceNumStep df = ⟨df.cols, df.rows.map (zipCoerce NS df.cols)⟩ := by
  induction NS generalizing df with
  | nil =>
    cases df with
    | mk cols rows =>
      simp only [List.foldl_nil]
      congr 1
      have h1 : rows.map (zipCoerce [] cols) = rows.map id :=
        List.map_congr_left (fun r hr => by
          rw [zipCoerce_nil_left, zipWith_snd_eq _ _ (hrect r hr)]
          rfl)
      rw [h1, List.map_id]
  | cons c NS ih =>
    simp only [List.foldl_cons]
    cases hi : idxOf c df.cols with
    | none =>
      have hstep : coerceNumStep df c = df := by simp [coerceNumStep, hi]
      rw [hstep, ih df hnd hrect]
      have hnm : c ∉ df.cols := idxOf_eq_none_iff.1 hi
      congr 1
      exact List.map_congr_left (fun r _ => (zipCoerce_notMem c NS df.cols r hnm).symm)
    | some i =>
      have hstep : coerceNumStep df c = ⟨df.cols, df.rows.map (modAt i toNumericCell)⟩ := by
        simp [coerceNumStep, hi]
      rw [hstep, ih ⟨df.cols, df.rows.map (modAt i toNumericCell)⟩ hnd
        (by
          intro r hr
          obtain ⟨r0, hr0, rfl⟩ := List.mem_map.1 hr
          simpa [modAt_length] using hrect r0 hr0)]
      simp only [List.map_map]
      congr 1
      refine List.map_congr_left (fun r hr => ?_)
      exact zipCoerce_modAt c NS df.cols r i hnd (hrect r hr) hi

theorem coerceNumeric_eq (df : DataFrame)
    (hnd : df.cols.Nodup) (hrect : ∀ r ∈ df.rows, r.length = df.cols.length) :
    coerceNumeric df = ⟨df.cols, df.rows.map (zipCoerce numericColNames df.cols)⟩ :=
  foldl_coerceNumStep numericColNames df hnd hrect

theorem coerceNumStep_cols (df : DataFrame) (c : Str) : (coerceNumStep df c).cols = df.cols := by
  unfold coerceNumStep
  cases idxOf c df.cols <;> rfl

theorem coerceNumStep_rows_length (df : DataFrame) (c : Str) :
    (coerceNumStep df c).rows.length = df.rows.length := by
  unfold coerceNumStep
  cases idxOf c df.cols <;> simp

theorem foldl_coerceNumStep_cols (NS : List Str) (df : DataFrame) :
    (NS.foldl coerceNumStep df).cols = df.cols := by
  induction NS generalizing df with
  | nil => rfl
  | cons c cs ih => rw [List.foldl_cons, ih (coerceNumStep df c), coerceNumStep_cols]

theorem foldl_coerceNumStep_rows_length (NS : List Str) (df : DataFrame) :
    (NS.foldl coerceNumStep df).rows.length = df.rows.length := by
  induction NS generalizing df with
  | nil => rfl
  | cons c cs ih => rw [List.foldl_cons, ih (coerceNumStep df c), coerceNumStep_rows_length]

theorem coerceNumeric_cols (df : DataFrame) : (coerceNumeric df).cols = df.cols :=
  foldl_coerceNumStep_cols numericColNames df

theorem coerceNumeric_rows_length (df : DataFrame) :
    (coerceNumeric df).rows.length = df.rows.length :=
  foldl_coerceNumStep_rows_length numericColNames df

theorem addDatetime_rows_length (df1 : DataFrame) :
    (addDatetime df1).rows.length = df1.rows.length := by
  unfold addDatetime
  cases hd : idxOf dateName df1.cols with
  | none => rfl
  | some di =>
    cases ht : idxOf timeName df1.cols with
    | none => rfl
    | some ti =>
      cases hk : idxOf datetimeName df1.cols with
      | none => simp
      | some k => simp

/-- Coercion never changes the number of rows. -/
theorem coerceTable_rows_length (df : DataFrame) :
    (coerceTable df).rows.length = df.rows.length := by
  rw [coerceTable, addDatetime_rows_length, coerceNumeric_rows_length]

end CoerceLemmas

section ParseLemmas

theorem lastDir_eq_none_iff {ls : List Str} :
    lastDir ls = none ↔ ∀ l ∈ ls, isDirectiveLine l = false := by
  induction ls with
  | nil => simp [lastDir]
  | cons l ls ih =>
    cases hld : lastDir ls with
    | some d =>
      have : ∃ x ∈ ls, isDirectiveLine x = true := by
        clear ih
        induction ls generalizing d with
        | nil => simp [lastDir] at hld
        | cons y ys ihy =>
          cases hy : lastDir ys with
          | some d0 =>
            obtain ⟨x, hx, hdx⟩ := ihy d0 hy
            exact ⟨x, by simp [hx], hdx⟩
          | none =>
            simp only [lastDir, hy] at hld
            by_cases hdy : isDirectiveLine y = true
            · exact ⟨y, by simp, hdy⟩
            · simp [hdy] at hld
      obtain ⟨x, hx, hdx⟩ := this
      simp only [lastDir, hld]
      constructor
      · intro h
        exact absurd h (by simp)
      · intro h
        exact absurd (h x (by simp [hx])) (by simp [hdx])
    | none =>
      simp only [lastDir, hld]
      by_cases hd : isDirectiveLine l = true
      · simp only [hd, if_true]
        constructor
        · intro h
          exact absurd h (by simp)
        · intro h
          exact absurd (h l (by simp)) (by simp [hd])
      · simp only [hd, if_false]
        constructor
        · intro _ x hx
          rcases List.mem_cons.1 hx with rfl | hx2
          · simpa using hd
          · exact ih.1 hld x hx2
        · intro _
          rfl

theorem lastDir_spec {ls : List Str} {d : Str} (h : lastDir ls = some d) :
    d ∈ ls ∧ isDirectiveLine d = true := by
  induction ls with
  | nil => simp [lastDir] at h
  | cons l ls ih =>
    cases hld : lastDir ls with
    | some d0 =>
      rw [lastDir, hld] at h
      obtain ⟨hm, hd⟩ := ih (hld.trans (by injection h with h1; rw [h1]))
      exact ⟨by simp [hm], hd⟩
    | none =>
      rw [lastDir, hld] at h
      by_cases hdl : isDirectiveLine l = true
      · simp only [hdl, if_true, Option.some_inj] at h
        subst h
        exact ⟨by simp, hdl⟩
      · simp [hdl] at h

theorem parseScan_fst_none {st : Option (List Str) × List (List Str)}
    (h : st.1 = none) : parseScan st = .error .formatErr := by
  obtain ⟨f, d⟩ := st
  simp only at h
  subst h
  rfl

theorem parseScan_fst_some {st : Option (List Str) × List (List Str)} {fl : List Str}
    (h : st.1 = some fl) :
    parseScan st =
      if fl.isEmpty ∨ st.2.isEmpty then .error .formatErr
      else
        match mkDF fl st.2 with
        | none => .error .columnsErr
        | some df => .ok (coerceTable df) := by
  obtain ⟨f, d⟩ := st
  simp only at h
  subst h
  rfl

theorem foldl_max_const (ls : List ℕ) (a k : ℕ) (h : ∀ x ∈ ls, x = k) (hne : ls ≠ []) :
    ls.foldl Nat.max a = Nat.max a k := by
  induction ls generalizing a with
  | nil => exact absurd rfl hne
  | cons x xs ih =>
    have hx : x = k := h x (by simp)
    subst hx
    by_cases hxs : xs = []
    · subst hxs
      simp [List.foldl]
    · rw [List.foldl_cons, ih (Nat.max a x) (fun z hz => h z (by simp [hz])) hxs]
      simp only [Nat.max_def]
      split_ifs <;> omega

/-- Pandas `pd.DataFrame` on rectangular data matching the schema width. -/
theorem mkDF_of_rect (fl : List Str) (data : List (List Str))
    (h : ∀ r ∈ data, r.length = fl.length) (hne : data ≠ []) :
    mkDF fl data = some ⟨fl, data.map (List.map Cell.str)⟩ := by
  have hw : (data.map List.length).foldl Nat.max 0 = fl.length := by
    rw [foldl_max_const (data.map List.length) 0 fl.length
      (by
        intro x hx
        obtain ⟨r, hr, rfl⟩ := List.mem_map.1 hx
        exact h r hr)
      (by simpa using hne)]
    exact Nat.zero_max fl.length
  have hrows : data.map (fun r => r.map Cell.str ++ List.replicate (fl.length - r.length) Cell.null)
      = data.map (List.map Cell.str) :=
    List.map_congr_left (fun r hr => by
      rw [h r hr]
      simp)
  simp only [mkDF]
  rw [hw, if_pos rfl, hrows]

end ParseLemmas

section AggLemmas

theorem mem_sortedStatuses {df : DataFrame} {k : ℚ} :
    k ∈ sortedStatuses df ↔ ∃ r ∈ df.rows, statusOf df r = some k := by
  rw [sortedStatuses, mem_insSort, List.mem_dedup, List.mem_filterMap]

theorem length_sortedStatuses (df : DataFrame) :
    (sortedStatuses df).length = (df.rows.filterMap (statusOf df)).dedup.length :=
  length_insSort _ _

theorem nodup_sortedStatuses (df : DataFrame) : (sortedStatuses df).Nodup :=
  nodup_insSort _ (List.nodup_dedup _)

theorem isErrorRow_iff {df : DataFrame} {r : List Cell} :
    isErrorRow df r = true ↔ ∃ s, statusOf df r = some s ∧ (500 : ℚ) ≤ s := by
  rw [isErrorRow]
  cases hs : statusOf df r with
  | none => simp
  | some q => simp

theorem length_filterMap_eq {α β : Type} (f : α → Option β) (l : List α) :
    (l.filterMap f).length = (l.filter (fun x => (f x).isSome)).length := by
  induction l with
  | nil => rfl
  | cons x xs ih =>
    cases hx : f x with
    | none => simpa [List.filterMap_cons, List.filter_cons, hx] using ih
    | some b => simpa [List.filterMap_cons, List.filter_cons, hx] using ih

theorem get?_three_blocks {β : Type} (f g h : ℚ → β) (ss : List ℚ) (j : ℕ) (s : ℚ)
    (hj : ss.get? j = some s) :
    ((ss.map f ++ (ss.map g ++ ss.map h)).get? j = some (f s)) ∧
    ((ss.map f ++ (ss.map g ++ ss.map h)).get? (ss.length + j) = some (g s)) ∧
    ((ss.map f ++ (ss.map g ++ ss.map h)).get? (2 * ss.length + j) = some (h s)) := by
  have hjlt : j < ss.length := by
    by_contra hge
    rw [List.get?_eq_none.2 (Nat.le_of_not_lt hge)] at hj
    exact Option.noConfusion hj
  refine ⟨?_, ?_, ?_⟩
  · rw [List.get?_append (by simpa using hjlt), List.get?_map, hj]
    rfl
  · rw [List.get?_append_right (by simp)]
    have : ss.length + j - (ss.map f).length = j := by simp
    rw [this, List.get?_append (by simpa using hjlt), List.get?_map, hj]
    rfl
  · rw [List.get?_append_right (by simp [Nat.two_mul]; omega)]
    have : 2 * ss.length + j - (ss.map f).length = ss.length + j := by
      simp
      omega
    rw [this, List.get?_append_right (by simp)]
    have : ss.length + j - (ss.map g).length = j := by simp
    rw [this, List.get?_map, hj]
    rfl

/-- The agg-major flattened layout, unfolded. -/
theorem aggNames_flatten {β : Type} (F : Str → ℚ → β) (ss : List ℚ) :
    (aggNames.map (fun a => ss.map (F a))).flatten =
      ss.map (F "count".data) ++ (ss.map (F "mean".data) ++ ss.map (F "max".data)) := by
  simp [aggNames]

end AggLemmas

section DecodeLemmas

theorem utf8DecodeAux_ascii_cons (n : ℕ) (b : ℕ) (bs : List ℕ) (hb : b < 128) :
    utf8DecodeAux (n + 1) (b :: bs) = Char.ofNat b :: utf8DecodeAux n bs := by
  simp [utf8DecodeAux, hb]

theorem utf8DecodeAux_ff_cons (n : ℕ) (bs : List ℕ) :
    utf8DecodeAux (n + 1) (255 :: bs) = utf8DecodeAux n bs := by
  norm_num [utf8DecodeAux]

/-- A pure-ASCII byte list decodes to itself. -/
theorem utf8Decode_ascii (t : List Char) (ht : ∀ c ∈ t, c.toNat < 128) :
    utf8Decode (t.map Char.toNat) = t := by
  induction t with
  | nil => rfl
  | cons c cs ih =>
    rw [List.map_cons, utf8Decode,
      show (Char.toNat c :: cs.map Char.toNat).length = (cs.map Char.toNat).length + 1 from rfl,
      utf8DecodeAux_ascii_cons _ _ _ (ht c (by simp)), Char.ofNat_toNat]
    congr 1
    exact ih (fun x hx => ht x (by simp [hx]))

end DecodeLemmas

/-! ## The claims -/

/-- Claim C7: numeric coercion is idempotent — applying the
best-effort numeric conversion (`pd.to_numeric(_, errors='coerce')`) to
an already-coerced column yields exactly the same values, null markers
included. -/
theorem c7_to_numeric_idempotent (col : List Cell) :
    to_numeric (to_numeric col) = to_numeric col := by
  rw [to_numeric, to_numeric, List.map_map]
  exact List.map_congr_left (fun x _ => toNumericCell_idem x)

theorem c7_to_numeric_idempotent_witness :
    to_numeric (to_numeric [Cell.str "12".data, Cell.str "x".data, Cell.null]) =
      to_numeric [Cell.str "12".data, Cell.str "x".data, Cell.null] :=
  c7_to_numeric_idempotent [Cell.str "12".data, Cell.str "x".data, Cell.null]

/-- Claim C5, counterexample: `parse_iis_log` decodes with
`errors='ignore'`, so the invalid byte `0xFF` between `'A'` and `'B'`
is dropped without a trace — the decode differs from the replacement
semantics the claim describes, and no replacement marker appears. -/
theorem c5_counterexample :
    utf8Decode [65, 255, 66] = ['A', 'B'] ∧
    utf8DecodeReplace [65, 255, 66] = ['A', '�', 'B'] ∧
    utf8Decode [65, 255, 66] ≠ utf8DecodeReplace [65, 255, 66] ∧
    '�' ∉ utf8Decode [65, 255, 66] := by
  refine ⟨by decide, by decide, by decide, by decide⟩

/-- Claim C5 (amended): decoding never fails, but invalid byte
sequences are *dropped* (ignored), not replaced: around an invalid
`0xFF` byte, exactly the surrounding well-formed text survives. -/
theorem c5_amended (s t : List Char) (hs : ∀ c ∈ s, c.toNat < 128)
    (ht : ∀ c ∈ t, c.toNat < 128) :
    utf8Decode (s.map Char.toNat ++ 255 :: t.map Char.toNat) = s ++ t := by
  induction s with
  | nil =>
    rw [List.map_nil, List.nil_append, List.nil_append, utf8Decode,
      show (255 :: t.map Char.toNat).length = (t.map Char.toNat).length + 1 from rfl,
      utf8DecodeAux_ff_cons]
    exact utf8Decode_ascii t ht
  | cons c cs ih =>
    rw [List.map_cons, List.cons_append, utf8Decode,
      show (Char.toNat c :: (cs.map Char.toNat ++ 255 :: t.map Char.toNat)).length
        = (cs.map Char.toNat ++ 255 :: t.map Char.toNat).length + 1 from rfl,
      utf8DecodeAux_ascii_cons _ _ _ (hs c (by simp)), Char.ofNat_toNat, List.cons_append]
    congr 1
    exact ih (fun x hx => hs x (by simp [hx]))

theorem c5_amended_witness :
    utf8Decode (['H', 'i'].map Char.toNat ++ 255 :: ['!'].map Char.toNat) = ['H', 'i', '!'] :=
  c5_amended ['H', 'i'] ['!'] (by decide) (by decide)

/-- The C2 counterexample input: a directive with one field, one
accepted data line, then a second `#Fields:` directive declaring zero
fields, which leaves the Python `fields` list empty and falsy. -/
def cex2Bytes : List ℕ := strBytes "#Fields: a\nx\n#Fields:"

/-- Claim C2, counterexample: on `cex2Bytes` a `#Fields:` directive
line was found and one data line was accepted as a record, yet
`parse_iis_log` still fails with the single "no data / invalid format"
error, because the *last* (empty) directive leaves `fields` falsy —
the claimed "if and only if" is false. -/
theorem c2_counterexample :
    parse_iis_log cex2Bytes = .error .formatErr ∧
    (∃ l ∈ splitLines (utf8Decode cex2Bytes), isDirectiveLine l = true) ∧
    (scanLines (splitLines (utf8Decode cex2Bytes))).2.length = 1 := by
  refine ⟨by decide, by decide, by decide⟩

/-- Claim C2 (amended): `parse_iis_log` fails with the single
"no data / invalid format" error iff no `#Fields:` directive line was
found, or the last directive line declares zero field names, or zero
data lines were accepted as records.  (A schema/row width conflict can
still fail later, but with a different error.) -/
theorem c2_amended (bytes : List ℕ) :
    parse_iis_log bytes = .error .formatErr ↔
      ((∀ l ∈ splitLines (utf8Decode bytes), isDirectiveLine l = false) ∨
       (∃ d, lastDir (splitLines (utf8Decode bytes)) = some d ∧ (tokens d).drop 1 = []) ∨
       (scanLines (splitLines (utf8Decode bytes))).2 = []) := by
  have hfst := scanFrom_fst (none, []) (splitLines (utf8Decode bytes))
  rw [parse_iis_log]
  cases hld : lastDir (splitLines (utf8Decode bytes)) with
  | none =>
    have h1 : (scanLines (splitLines (utf8Decode bytes))).1 = none := by
      rw [scanLines, hfst, hld]
    rw [parseScan_fst_none h1]
    constructor
    · intro _
      exact Or.inl (lastDir_eq_none_iff.1 hld)
    · intro _
      rfl
  | some d =>
    have h1 : (scanLines (splitLines (utf8Decode bytes))).1 = some ((tokens d).drop 1) := by
      rw [scanLines, hfst, hld]
    rw [parseScan_fst_some h1]
    have hdmem := lastDir_spec hld
    constructor
    · intro h
      by_cases hFe : ((tokens d).drop 1).isEmpty = true
      · exact Or.inr (Or.inl ⟨d, rfl, List.isEmpty_iff.1 hFe⟩)
      · by_cases hde : (scanLines (splitLines (utf8Decode bytes))).2.isEmpty = true
        · exact Or.inr (Or.inr (List.isEmpty_iff.1 hde))
        · have hcond : ¬ (((tokens d).drop 1).isEmpty = true ∨
              (scanLines (splitLines (utf8Decode bytes))).2.isEmpty = true) := by
            intro hor
            rcases hor with h' | h'
            · exact hFe h'
            · exact hde h'
          rw [if_neg hcond] at h
          cases hmk : mkDF ((tokens d).drop 1) (scanLines (splitLines (utf8Decode bytes))).2 with
          | none =>
            rw [hmk] at h
            exact absurd h (by simp)
          | some df =>
            rw [hmk] at h
            exact absurd h (by simp)
    · intro h
      rcases h with h | ⟨d', hd', hF⟩ | h
      · exact absurd (h d hdmem.1) (by simp [hdmem.2])
      · injection hd' with hdd
        subst hdd
        rw [if_pos (Or.inl (by simp [hF]))]
      · rw [if_pos (Or.inr (by simp [h]))]

theorem c2_amended_witness :
    parse_iis_log cex2Bytes = .error .formatErr ↔
      ((∀ l ∈ splitLines (utf8Decode cex2Bytes), isDirectiveLine l = false) ∨
       (∃ d, lastDir (splitLines (utf8Decode cex2Bytes)) = some d ∧ (tokens d).drop 1 = []) ∨
       (scanLines (splitLines (utf8Decode cex2Bytes))).2 = []) :=
  c2_amended cex2Bytes

/-- The C4 counterexample: a two-field directive, a two-token data
line, then a three-field directive and a three-token data line. -/
def cex4Lines : List Str := ["#Fields: a b", "x y", "#Fields: a b c", "p q r"].map String.data

def cex4Bytes : List ℕ := strBytes "#Fields: a b\nx y\n#Fields: a b c\np q r"

/-- Claim C4, counterexample: with two directive lines, the real scan
accepts the two-token line `"x y"` against the *earlier* directive (2
rows in total, and the final parsed table has 2 rows), whereas the
claimed "as if earlier directives had never occurred" semantics
(`scanLinesLastDirOnly`) accepts only `"p q r"` (1 row) — acceptance
is not determined solely by the last directive. -/
theorem c4_counterexample :
    (scanLines cex4Lines).2.length = 2 ∧
    (scanLinesLastDirOnly cex4Lines).2.length = 1 ∧
    scanLines cex4Lines ≠ scanLinesLastDirOnly cex4Lines ∧
    (parse_iis_log cex4Bytes).toOption.map (fun df => df.rows.length) = some 2 := by
  refine ⟨by decide, by decide, by decide, by decide⟩

/-- Claim C4 (amended): the *column names* of the parsed table are
determined by the last `#Fields:` line (overwrite semantics), but
*which data lines are accepted* is not — each data line is tested
against the schema of the most recent directive seen before it. -/
theorem c4_amended :
    (∀ ls : List Str, (scanLines ls).1 =
      match lastDir ls with
      | some d => some ((tokens d).drop 1)
      | none => none) ∧
    (∀ (pre : List Str) (l : Str), isComment l = false →
      (scanLines (pre ++ [l])).2 =
        (scanLines pre).2 ++ (if acceptedBy (scanLines pre).1 l then [tokens l] else [])) := by
  constructor
  · intro ls
    exact scanFrom_fst (none, []) ls
  · intro pre l hc
    rw [scanLines, scanFrom_append]
    show (scanStep (scanFrom (none, []) pre) l).2 = _
    rw [show scanFrom (none, []) pre = scanLines pre from rfl]
    generalize scanLines pre = st
    by_cases ht : fieldsTruthy st.1 = true
    · by_cases hb : nonblank l = true
      · by_cases h2 : (tokens l).length = (st.1.getD []).length
        · have hacc : acceptedBy st.1 l = true := by simp [acceptedBy, ht, hb, h2]
          simp [scanStep, hc, ht, hb, h2, hacc]
        · have hacc : acceptedBy st.1 l = false := by simp [acceptedBy, h2]
          simp [scanStep, hc, ht, hb, h2, hacc]
      · have hb' : nonblank l = false := by revert hb; cases nonblank l <;> simp
        have hacc : acceptedBy st.1 l = false := by simp [acceptedBy, hb']
        simp [scanStep, hc, ht, hb', hacc]
    · have ht' : fieldsTruthy st.1 = false := by revert ht; cases fieldsTruthy st.1 <;> simp
      have hacc : acceptedBy st.1 l = false := by simp [acceptedBy, ht']
      simp [scanStep, hc, ht', hacc]

/-- Claim C3: after a `#Fields:` directive declaring a non-empty
schema, with no further directive lines, the parsed table has exactly
one row per accepted data line — a non-comment, non-blank line whose
whitespace token count equals the schema's field count — and a line
whose token count differs contributes zero rows and raises no error
(as long as at least one line is accepted; with zero accepted lines
the C2 format error fires instead). -/
theorem c3_row_count (bytes : List ℕ) (pre post : List Str) (dirLine : Str)
    (hsplit : splitLines (utf8Decode bytes) = pre ++ dirLine :: post)
    (hpre : ∀ l ∈ pre, isDirectiveLine l = false)
    (hdir : isDirectiveLine dirLine = true)
    (hF : (tokens dirLine).drop 1 ≠ [])
    (hpost : ∀ l ∈ post, isDirectiveLine l = false)
    (hN : (post.filter (acceptedLine ((tokens dirLine).drop 1).length)).length ≠ 0) :
    (parse_iis_log bytes).toOption.map (fun df => df.rows.length) =
      some (post.filter (acceptedLine ((tokens dirLine).drop 1).length)).length := by
  have hscan : scanLines (splitLines (utf8Decode bytes)) =
      (some ((tokens dirLine).drop 1),
        (post.filter (acceptedLine ((tokens dirLine).drop 1).length)).map tokens) := by
    rw [hsplit, scanLines, show pre ++ dirLine :: post = (pre ++ [dirLine]) ++ post by simp,
      scanFrom_append, scanFrom_append]
    rw [scanFrom_snd_falsy pre none [] rfl hpre]
    have hstep : scanFrom (none, []) [dirLine] = (some ((tokens dirLine).drop 1), []) := by
      show scanStep (none, []) dirLine = _
      simp [scanStep, isComment_of_isDirectiveLine hdir, hdir]
    rw [hstep, scanFrom_snd_fixed post ((tokens dirLine).drop 1) hF [] hpost]
    simp
  rw [parse_iis_log, hscan]
  have hdata_ne :
      (post.filter (acceptedLine ((tokens dirLine).drop 1).length)).map tokens ≠ [] := by
    intro hempty
    apply hN
    simpa using congrArg List.length hempty
  have hrect : ∀ r ∈ (post.filter (acceptedLine ((tokens dirLine).drop 1).length)).map tokens,
      r.length = ((tokens dirLine).drop 1).length := by
    intro r hr
    obtain ⟨l, hl, rfl⟩ := List.mem_map.1 hr
    have hacc := (List.mem_filter.1 hl).2
    simp only [acceptedLine, Bool.and_eq_true, beq_iff_eq] at hacc
    exact hacc.2
  rw [parseScan_fst_some rfl,
    if_neg (by
      intro hor
      rcases hor with h' | h'
      · exact hF (List.isEmpty_iff.1 h')
      · exact hdata_ne (List.isEmpty_iff.1 h')),
    mkDF_of_rect ((tokens dirLine).drop 1) _ hrect hdata_ne]
  simp [Except.toOption, coerceTable_rows_length]

def c3wBytes : List ℕ := strBytes "#Fields: a b\n1 2\n3 4 5\nx y"

theorem c3_row_count_witness :
    (parse_iis_log c3wBytes).toOption.map (fun df => df.rows.length) =
      some ((["1 2".data, "3 4 5".data, "x y".data].filter
        (acceptedLine ((tokens "#Fields: a b".data).drop 1).length)).length) :=
  c3_row_count c3wBytes [] ["1 2".data, "3 4 5".data, "x y".data] "#Fields: a b".data
    (by decide) (by decide) (by decide) (by decide) (by decide) (by decide)

/-- Claim C6: the type-coercion step is total (it never raises): it
keeps every row, applies `toNumericCell` to exactly the cells of the
fixed numeric columns (an unparseable string cell degrades to the NaN
marker `Cell.num (parseNum s)` with `parseNum s = none`), leaves every
other column untouched, and — exactly when both `date` and `time`
exist — appends a `datetime` cell derived per row from the raw `date`
and `time` strings (`none`, i.e. NaT, when unparseable). -/
theorem c6_coercion_total_cellwise (df : DataFrame) (hnd : df.cols.Nodup)
    (hrect : ∀ r ∈ df.rows, r.length = df.cols.length) (hdt : datetimeName ∉ df.cols) :
    coerceTable df =
      ⟨df.cols ++ (match idxOf dateName df.cols, idxOf timeName df.cols with
        | some _, some _ => [datetimeName]
        | _, _ => []),
       df.rows.map (fun r => zipCoerce numericColNames df.cols r ++
        (match idxOf dateName df.cols, idxOf timeName df.cols with
         | some di, some ti => [datetimeCellOf di ti r]
         | _, _ => []))⟩ ∧
    (∀ s : Str, toNumericCell (Cell.str s) = Cell.num (parseNum s)) := by
  refine ⟨?_, fun s => rfl⟩
  rw [coerceTable, coerceNumeric_eq df hnd hrect]
  cases hd : idxOf dateName df.cols with
  | none =>
    unfold addDatetime
    simp only [hd]
    congr 1
    · simp
    · exact (List.map_congr_left (fun r _ => by simp)).symm
  | some di =>
    cases htm : idxOf timeName df.cols with
    | none =>
      unfold addDatetime
      simp only [hd, htm]
      congr 1
      · simp
      · exact (List.map_congr_left (fun r _ => by simp)).symm
    | some ti =>
      have hk : idxOf datetimeName df.cols = none := idxOf_eq_none_iff.2 hdt
      unfold addDatetime
      simp only [hd, htm, hk]
      congr 1
      rw [List.map_map]
      refine List.map_congr_left (fun r hr => ?_)
      have hdtcell : datetimeCellOf di ti (zipCoerce numericColNames df.cols r) =
          datetimeCellOf di ti r := by
        have hd1 : dateName ∉ numericColNames := by decide
        have ht1 : timeName ∉ numericColNames := by decide
        unfold datetimeCellOf
        rw [get?_zipCoerce, get?_zipCoerce, idxOf_get? hd, idxOf_get? htm]
        cases hrd : r.get? di with
        | none => rfl
        | some x =>
          cases hrt : r.get? ti with
          | none => cases x <;> simp [hd1]
          | some y => cases x <;> cases y <;> simp [hd1, ht1]
      simp only [Function.comp]
      rw [hdtcell]

def c6wDf : DataFrame :=
  ⟨[dateName, timeName, scStatusName],
    [[Cell.str "2024-01-01".data, Cell.str "00:00:00".data, Cell.str "200".data]]⟩

theorem c6_coercion_witness :
    coerceTable c6wDf =
      ⟨c6wDf.cols ++ (match idxOf dateName c6wDf.cols, idxOf timeName c6wDf.cols with
        | some _, some _ => [datetimeName]
        | _, _ => []),
       c6wDf.rows.map (fun r => zipCoerce numericColNames c6wDf.cols r ++
        (match idxOf dateName c6wDf.cols, idxOf timeName c6wDf.cols with
         | some di, some ti => [datetimeCellOf di ti r]
         | _, _ => []))⟩ ∧
    (∀ s : Str, toNumericCell (Cell.str s) = Cell.num (parseNum s)) :=
  c6_coercion_total_cellwise c6wDf (by decide) (by decide) (by decide)

theorem c4_amended_witness :
    ((scanLines cex4Lines).1 =
      match lastDir cex4Lines with
      | some d => some ((tokens d).drop 1)
      | none => none) ∧
    ((scanLines (["#Fields: a".data] ++ ["x".data])).2 =
      (scanLines ["#Fields: a".data]).2 ++
        (if acceptedBy (scanLines ["#Fields: a".data]).1 "x".data
          then [tokens "x".data] else [])) :=
  ⟨c4_amended.1 cex4Lines, c4_amended.2 ["#Fields: a".data] "x".data (by decide)⟩

/-- The C1 counterexample input: the status `"abc"` coerces to NaN. -/
def cex1Bytes : List ℕ := strBytes "#Fields: sc-status time-taken\nabc 1\n200 2"

/-- Claim C1, counterexample: on `cex1Bytes` the coerced table has one
row with a null `sc-status` and one distinct numeric status, so the
claim predicts a summary of 2 rows (one per status plus one null
group); `generate_summary` produces 1 row — pandas `groupby` *drops*
null keys, no null group exists. -/
theorem c1_counterexample :
    (parse_iis_log cex1Bytes).toOption.map
      (fun df => (generate_summary df).toOption.map List.length) = some (some 1) ∧
    (parse_iis_log cex1Bytes).toOption.map
      (fun df => df.rows.countP (fun r => (statusOf df r).isNone)) = some 1 ∧
    (parse_iis_log cex1Bytes).toOption.map
      (fun df => (df.rows.filterMap (statusOf df)).dedup.length) = some 1 := by
  refine ⟨by decide, by decide, by decide⟩

/-- Claim C1 (amended): the status summary has exactly one row per
distinct *non-null* numeric `sc-status` (rows whose status coerced to
null belong to no group and are dropped); within each group `count` is
the full group size while the mean/max/min of `time-taken` ignore null
`time-taken` values. -/
theorem c1_summary_groups (df : DataFrame)
    (h : scStatusName ∈ df.cols ∧ timeTakenName ∈ df.cols) :
    ∃ out, generate_summary df = .ok out ∧
      out.length = (df.rows.filterMap (statusOf df)).dedup.length ∧
      (out.map SummaryRow.sc_status).Nodup ∧
      (∀ k : ℚ, k ∈ out.map SummaryRow.sc_status ↔ ∃ r ∈ df.rows, statusOf df r = some k) ∧
      (∀ sr ∈ out,
        sr.count = (df.rows.filter (fun r => statusOf df r == some sr.sc_status)).length ∧
        sr.avg_time_taken = meanOpt ((df.rows.filter
          (fun r => statusOf df r == some sr.sc_status)).filterMap (ttOf df)) ∧
        sr.max_time_taken = maxOpt ((df.rows.filter
          (fun r => statusOf df r == some sr.sc_status)).filterMap (ttOf df)) ∧
        sr.min_time_taken = minOpt ((df.rows.filter
          (fun r => statusOf df r == some sr.sc_status)).filterMap (ttOf df))) := by
  have hmap : (((sortedStatuses df).map (summaryRowFor df)).map SummaryRow.sc_status)
      = sortedStatuses df := by
    rw [List.map_map]
    have hcomp : SummaryRow.sc_status ∘ summaryRowFor df = id := funext (fun k => rfl)
    rw [hcomp, List.map_id]
  refine ⟨(sortedStatuses df).map (summaryRowFor df), by rw [generate_summary, if_pos h],
    ?_, ?_, ?_, ?_⟩
  · rw [List.length_map, length_sortedStatuses]
  · rw [hmap]
    exact nodup_sortedStatuses df
  · intro k
    rw [hmap]
    exact mem_sortedStatuses
  · intro sr hsr
    obtain ⟨k, hk, rfl⟩ := List.mem_map.1 hsr
    exact ⟨rfl, rfl, rfl, rfl⟩

def c1wDf : DataFrame :=
  ⟨[scStatusName, timeTakenName],
    [[Cell.num (some 200), Cell.num (some 10)], [Cell.num (some 200), Cell.num none]]⟩

theorem c1_summary_groups_witness :
    ∃ out, generate_summary c1wDf = .ok out ∧
      out.length = (c1wDf.rows.filterMap (statusOf c1wDf)).dedup.length ∧
      (out.map SummaryRow.sc_status).Nodup ∧
      (∀ k : ℚ, k ∈ out.map SummaryRow.sc_status ↔
        ∃ r ∈ c1wDf.rows, statusOf c1wDf r = some k) ∧
      (∀ sr ∈ out,
        sr.count = (c1wDf.rows.filter
          (fun r => statusOf c1wDf r == some sr.sc_status)).length ∧
        sr.avg_time_taken = meanOpt ((c1wDf.rows.filter
          (fun r => statusOf c1wDf r == some sr.sc_status)).filterMap (ttOf c1wDf)) ∧
        sr.max_time_taken = maxOpt ((c1wDf.rows.filter
          (fun r => statusOf c1wDf r == some sr.sc_status)).filterMap (ttOf c1wDf)) ∧
        sr.min_time_taken = minOpt ((c1wDf.rows.filter
          (fun r => statusOf c1wDf r == some sr.sc_status)).filterMap (ttOf c1wDf))) :=
  c1_summary_groups c1wDf (by decide)

/-- Claim C9: the error rollup exists whenever `sc-status` and
`cs-uri-stem` are present, and it contains exactly the endpoints with
at least one record whose numeric `sc-status` is ≥ 500; null-status
rows fail the `>= 500` filter, so an endpoint whose records all have
status < 500 or null status never appears.  (`time-taken` is assumed
present, as the pipeline guarantees after the summary step.) -/
theorem c9_error_endpoints (df : DataFrame)
    (h : scStatusName ∈ df.cols ∧ uriStemName ∈ df.cols)
    (htt : timeTakenName ∈ df.cols) :
    ∃ out, get_error_apps df = some out ∧
      (∀ e : Str, e ∈ out.map ErrRow.cs_uri_stem ↔
        ∃ r ∈ df.rows, endpointOf df r = some e ∧
          ∃ s, statusOf df r = some s ∧ (500 : ℚ) ≤ s) := by
  refine ⟨(errorEndpoints df).map (errRowFor df), by rw [get_error_apps, if_pos h], ?_⟩
  intro e
  have hmap : ((errorEndpoints df).map (errRowFor df)).map ErrRow.cs_uri_stem
      = errorEndpoints df := by
    rw [List.map_map]
    have hcomp : ErrRow.cs_uri_stem ∘ errRowFor df = id := funext (fun x => rfl)
    rw [hcomp, List.map_id]
  rw [hmap, errorEndpoints, mem_insSort, List.mem_dedup, List.mem_filterMap]
  constructor
  · rintro ⟨r, hr, he⟩
    have hf := List.mem_filter.1 hr
    exact ⟨r, hf.1, he, isErrorRow_iff.1 hf.2⟩
  · rintro ⟨r, hr, he, s, hs, hge⟩
    exact ⟨r, List.mem_filter.2 ⟨hr, isErrorRow_iff.2 ⟨s, hs, hge⟩⟩, he⟩

def c9wDf : DataFrame :=
  ⟨[uriStemName, scStatusName, timeTakenName],
    [[Cell.str "/a".data, Cell.num (some 500), Cell.num (some 10)],
     [Cell.str "/b".data, Cell.num (some 499), Cell.num (some 5)],
     [Cell.str "/c".data, Cell.num none, Cell.num (some 7)]]⟩

theorem c9_error_endpoints_witness :
    ∃ out, get_error_apps c9wDf = some out ∧
      (∀ e : Str, e ∈ out.map ErrRow.cs_uri_stem ↔
        ∃ r ∈ c9wDf.rows, endpointOf c9wDf r = some e ∧
          ∃ s, statusOf c9wDf r = some s ∧ (500 : ℚ) ≤ s) :=
  c9_error_endpoints c9wDf (by decide) (by decide)

/-- Claim C10: the three aggregations count rows differently.  Each
pivot `count` cell for an (endpoint, status) pair counts only that
pair's rows whose `time-taken` is non-null (pandas `'count'` counts
non-NA values of the aggregated column), whereas the status summary's
`count` and the error rollup's `error_count` are full group sizes
(`('sc-status', 'size')`), null `time-taken` included. -/
theorem c10_count_semantics (df : DataFrame) (htt : timeTakenName ∈ df.cols) :
    (∀ p, create_pivot_table df = some p → ∀ pr ∈ p.rows, ∀ j s,
      (sortedStatuses df).get? j = some s →
      pr.cells.get? j = some (some
        ((((df.rows.filter (fun r => endpointOf df r == some pr.cs_uri_stem &&
            statusOf df r == some s)).filter
              (fun r => (ttOf df r).isSome)).length : ℚ)))) ∧
    (∀ out, generate_summary df = .ok out → ∀ sr ∈ out,
      sr.count = (df.rows.filter (fun r => statusOf df r == some sr.sc_status)).length) ∧
    (∀ out, get_error_apps df = some out → ∀ er ∈ out,
      er.error_count = ((df.rows.filter (isErrorRow df)).filter
        (fun r => endpointOf df r == some er.cs_uri_stem)).length) := by
  refine ⟨?_, ?_, ?_⟩
  · intro p hp pr hpr j s hj
    by_cases hcols : scStatusName ∈ df.cols ∧ uriStemName ∈ df.cols
    · rw [create_pivot_table, if_pos hcols] at hp
      injection hp with hp
      subst hp
      obtain ⟨e, he, rfl⟩ := List.mem_map.1 hpr
      have hcells : (pivotRowFor df e).cells =
          (sortedStatuses df).map (fun s => pivotCell df "count".data e s) ++
          ((sortedStatuses df).map (fun s => pivotCell df "mean".data e s) ++
           (sortedStatuses df).map (fun s => pivotCell df "max".data e s)) := by
        rw [show (pivotRowFor df e).cells = (aggNames.map (fun a => (sortedStatuses df).map
            (fun s => pivotCell df a e s))).flatten from rfl,
          aggNames_flatten (fun a s => pivotCell df a e s)]
      have hblocks := get?_three_blocks (fun s => pivotCell df "count".data e s)
        (fun s => pivotCell df "mean".data e s) (fun s => pivotCell df "max".data e s)
        (sortedStatuses df) j s hj
      rw [hcells]
      refine hblocks.1.trans ?_
      have hcount : pivotCell df "count".data e s =
          some ((((df.rows.filter (fun r => endpointOf df r == some e &&
            statusOf df r == some s)).filterMap (ttOf df)).length : ℚ)) := by
        rw [pivotCell, if_pos rfl]
      show some (pivotCell df "count".data e s) = some (some
        ((((df.rows.filter (fun r => endpointOf df r == some e &&
          statusOf df r == some s)).filter (fun r => (ttOf df r).isSome)).length : ℚ)))
      rw [hcount, length_filterMap_eq]
    · rw [create_pivot_table, if_neg hcols] at hp
      exact absurd hp (by simp)
  · intro out hout sr hsr
    by_cases hcols : scStatusName ∈ df.cols ∧ timeTakenName ∈ df.cols
    · rw [generate_summary, if_pos hcols] at hout
      injection hout with hout
      subst hout
      obtain ⟨k, hk, rfl⟩ := List.mem_map.1 hsr
      rfl
    · rw [generate_summary, if_neg hcols] at hout
      exact absurd hout (by simp)
  · intro out hout er her
    by_cases hcols : scStatusName ∈ df.cols ∧ uriStemName ∈ df.cols
    · rw [get_error_apps, if_pos hcols] at hout
      injection hout with hout
      subst hout
      obtain ⟨e, he, rfl⟩ := List.mem_map.1 her
      rfl
    · rw [get_error_apps, if_neg hcols] at hout
      exact absurd hout (by simp)

def c10wDf : DataFrame :=
  ⟨[uriStemName, scStatusName, timeTakenName],
    [[Cell.str "/a".data, Cell.num (some 500), Cell.num (some 10)],
     [Cell.str "/a".data, Cell.num (some 500), Cell.num none]]⟩

theorem c10_count_semantics_witness :
    ((pivotRowFor c10wDf "/a".data).cells.get? 0 = some (some
      ((((c10wDf.rows.filter (fun r =>
          endpointOf c10wDf r == some (pivotRowFor c10wDf "/a".data).cs_uri_stem &&
          statusOf c10wDf r == some 500)).filter
            (fun r => (ttOf c10wDf r).isSome)).length : ℚ)))) ∧
    ((summaryRowFor c10wDf 500).count = (c10wDf.rows.filter
      (fun r => statusOf c10wDf r == some (summaryRowFor c10wDf 500).sc_status)).length) ∧
    ((errRowFor c10wDf "/a".data).error_count =
      ((c10wDf.rows.filter (isErrorRow c10wDf)).filter
        (fun r => endpointOf c10wDf r ==
          some (errRowFor c10wDf "/a".data).cs_uri_stem)).length) :=
  ⟨(c10_count_semantics c10wDf (by decide)).1
      ⟨pivotColNames c10wDf, (pivotEndpoints c10wDf).map (pivotRowFor c10wDf)⟩ rfl
      (pivotRowFor c10wDf "/a".data) (List.mem_map.2 ⟨"/a".data, by decide, rfl⟩)
      0 500 (by decide),
   (c10_count_semantics c10wDf (by decide)).2.1
      ((sortedStatuses c10wDf).map (summaryRowFor c10wDf)) rfl
      (summaryRowFor c10wDf 500) (List.mem_map.2 ⟨500, by decide, rfl⟩),
   (c10_count_semantics c10wDf (by decide)).2.2
      ((errorEndpoints c10wDf).map (errRowFor c10wDf)) rfl
      (errRowFor c10wDf "/a".data) (List.mem_map.2 ⟨"/a".data, by decide, rfl⟩)⟩

end IISLog
